import Mathlib

/-!
Verification of the Bybit kline downloader (`src/bybit/src/main.rs`): a
shallow embedding of the pagination engine `BybitClient::get_kline`, the
single-page fetch `BybitClient::get_kline_single`, the row normalizer
`Kline::from_vec`, the interval table `BybitClient::parse_interval_to_ms`
and the output projection `Kline::to_barter_event`, together with theorems
about the guarantees of the returned kline series.

Modelling conventions:
- Rust `u64`/`u32`/`usize` values are `Nat`; arithmetic that cannot
  overflow or underflow under the loop invariants is plain `Nat` arithmetic.
- `f64` price fields are an abstract type `F` together with an abstract
  parse function `parseF : String → Option F` standing for Rust's
  `str::parse::<f64>` (the values are only carried through, never computed
  with).
- The HTTP transport is a boundary: the engine is parameterized by a
  `fetch` function standing for one `get_kline_single` call; its first
  argument is the index of the call (the number of requests already
  issued), so call-dependent providers can be expressed.
- The `while` loop of `get_kline` is modelled with explicit fuel; a run
  whose fuel is exhausted is reported as `RunResult.fuelOut`, distinct
  from both success and error.
- `chrono::DateTime<Utc>` is modelled by its epoch-millisecond value
  (`Int`); `DateTime::from_timestamp_millis` is a boundary parameter
  `tsMillis : Int → Option Int` (it is `some` exactly on chrono's
  representable range and acts as the identity there).
-/

/-- Rust unsigned-integer parsing (`str::parse::<uN>`): an optional
leading `+`, then one or more ASCII digits, rejecting any other
character, the empty string and values `≥ 2^w`. -/
def parseUint (w : Nat) (s : String) : Option Nat :=
  let cs := match s.data with
    | '+' :: rest => rest
    | cs => cs
  if cs = [] then none
  else if cs.all Char.isDigit then
    let v := cs.foldl (fun a c => a * 10 + (c.toNat - 48)) 0
    if v < 2 ^ w then some v else none
  else none

/-- `enum BybitError` (payloads reduced to the formatted message text). -/
inductive BybitError where
  | RequestError (msg : String)
  | JsonError (msg : String)
  | DateParseError (msg : String)
  | ApiError (msg : String)
deriving DecidableEq, Repr

/-- `struct KlineResult` — the success payload of the provider envelope. -/
structure KlineResult where
  symbol : String
  category : String
  list : List (List String)
deriving DecidableEq, Repr

/-- `struct BybitResponse` — the provider envelope. -/
structure BybitResponse where
  ret_code : Int
  ret_msg : String
  result : Option KlineResult
  time : Nat
deriving DecidableEq, Repr

/-- `struct Kline`, with the six `f64` fields at an abstract carrier `F`. -/
structure Kline (F : Type) where
  start_time : Nat
  open_price : F
  high_price : F
  low_price : F
  close_price : F
  volume : F
  turnover : F
deriving DecidableEq, Repr

/-- `Kline::from_vec`: arity check (at least 7 fields), then field-by-field
parsing in declaration order, failing with the message of the first field
that does not parse.  `parseF` stands for `str::parse::<f64>`. -/
def Kline.from_vec {F : Type} (parseF : String → Option F) (data : List String) :
    Except BybitError (Kline F) :=
  if data.length < 7 then
    .error (.ApiError "Invalid kline data format")
  else
    match parseUint 64 (data.getD 0 "") with
    | none => .error (.ApiError "Invalid start time")
    | some st =>
      match parseF (data.getD 1 "") with
      | none => .error (.ApiError "Invalid open price")
      | some o =>
        match parseF (data.getD 2 "") with
        | none => .error (.ApiError "Invalid high price")
        | some h =>
          match parseF (data.getD 3 "") with
          | none => .error (.ApiError "Invalid low price")
          | some lo =>
            match parseF (data.getD 4 "") with
            | none => .error (.ApiError "Invalid close price")
            | some c =>
              match parseF (data.getD 5 "") with
              | none => .error (.ApiError "Invalid volume")
              | some v =>
                match parseF (data.getD 6 "") with
                | none => .error (.ApiError "Invalid turnover")
                | some t =>
                  .ok ⟨st, o, h, lo, c, v, t⟩

/-- The `for kline_data in result.list { klines.push(Kline::from_vec(..)?) }`
loop of `get_kline_single`: normalize every row, aborting at the first
failure. -/
def klinesOfList {F : Type} (parseF : String → Option F) :
    List (List String) → Except BybitError (List (Kline F))
  | [] => .ok []
  | row :: rest =>
    match Kline.from_vec parseF row with
    | .error e => .error e
    | .ok k =>
      match klinesOfList parseF rest with
      | .error e => .error e
      | .ok ks => .ok (k :: ks)

/-- `BybitClient::get_kline_single`, as a function of the transport outcome:
a transport failure becomes `RequestError`, a non-zero `retCode` becomes
`ApiError` carrying `retMsg`, a missing `result` payload becomes
`ApiError "No result data"`, and otherwise every raw row is normalized. -/
def get_kline_single {F : Type} (parseF : String → Option F)
    (transport : Except String BybitResponse) : Except BybitError (List (Kline F)) :=
  match transport with
  | .error e => .error (.RequestError e)
  | .ok resp =>
    if resp.ret_code ≠ 0 then
      .error (.ApiError resp.ret_msg)
    else
      match resp.result with
      | none => .error (.ApiError "No result data")
      | some result => klinesOfList parseF result.list

/-- `BybitClient::parse_interval_to_ms` — the fixed interval table. -/
def parse_interval_to_ms (interval : String) : Except BybitError Nat :=
  if interval = "1" then .ok 60000
  else if interval = "3" then .ok 180000
  else if interval = "5" then .ok 300000
  else if interval = "15" then .ok 900000
  else if interval = "30" then .ok 1800000
  else if interval = "60" then .ok 3600000
  else if interval = "120" then .ok 7200000
  else if interval = "240" then .ok 14400000
  else if interval = "360" then .ok 21600000
  else if interval = "720" then .ok 43200000
  else if interval = "D" then .ok 86400000
  else if interval = "W" then .ok 604800000
  else if interval = "M" then .ok 2592000000
  else .error (.ApiError ("Unsupported interval: " ++ interval))

/-- Comparison key of `sort_by_key(|k| k.start_time)`. -/
def leStart {F : Type} (a b : Kline F) : Prop :=
  a.start_time ≤ b.start_time

instance {F : Type} : DecidableRel (leStart (F := F)) :=
  fun a b => Nat.decLe a.start_time b.start_time

instance {F : Type} : IsTotal (Kline F) leStart :=
  ⟨fun a b => Nat.le_total a.start_time b.start_time⟩

instance {F : Type} : IsTrans (Kline F) leStart :=
  ⟨fun _ _ _ => Nat.le_trans⟩

/-- `sort_by_key(|k| k.start_time)` — Rust's stable sort by `start_time`,
modelled as stable insertion sort (extensionally equal to any stable sort
on the same key). -/
def sortByStart {F : Type} (l : List (Kline F)) : List (Kline F) :=
  l.insertionSort leStart

/-- The scan of `dedup_by_key(|k| k.start_time)` after its first element:
drop every element whose `start_time` equals that of the last retained
element `last`. -/
def dedupLoop {F : Type} (last : Kline F) : List (Kline F) → List (Kline F)
  | [] => []
  | b :: rest =>
    if b.start_time = last.start_time then dedupLoop last rest
    else b :: dedupLoop b rest

/-- `all_klines.dedup_by_key(|k| k.start_time)` — remove all but the first
of consecutive records with equal `start_time`. -/
def dedupByStart {F : Type} : List (Kline F) → List (Kline F)
  | [] => []
  | a :: rest => a :: dedupLoop a rest

/-- The post-loop pass of `get_kline`: final sort by `start_time` followed
by deduplication of equal consecutive timestamps. -/
def finalize {F : Type} (acc : List (Kline F)) : List (Kline F) :=
  dedupByStart (sortByStart acc)

/-- One fetch request issued by the engine (`get_kline_single` call):
window `[rstart, rend)` and page limit. -/
structure FetchReq where
  rstart : Nat
  rend : Nat
  limit : Nat
deriving DecidableEq, Repr

/-- Outcome of a pagination run: the final series, a propagated error, or
fuel exhaustion (the Rust loop still running). -/
inductive RunResult (F : Type) where
  | ok (klines : List (Kline F))
  | err (e : BybitError)
  | fuelOut
deriving DecidableEq, Repr

/-- The `while` loop of `BybitClient::get_kline`.  `fetch i s e l` stands
for the `get_kline_single` call issued as request number `i` (zero-based)
with window `[s, e)` and limit `l`; `reqs` records the requests issued so
far.  Each loop iteration: compute the chunk limit and chunk end, fetch,
break on an empty page, sort the chunk, drop records not beyond the
accumulator's last timestamp, truncate to the remaining capacity, append,
break when the cap is reached, and advance `current_start` to the last
record's `start_time + interval_ms` (breaking only if the accumulator is
still empty). -/
def getKlineGo {F : Type} (fetch : Nat → Nat → Nat → Nat → Except BybitError (List (Kline F)))
    (e interval_ms max_records : Nat) :
    Nat → Nat → List (Kline F) → List FetchReq → RunResult F × List FetchReq
  | fuel, current_start, all_klines, reqs =>
    if current_start < e ∧ all_klines.length < max_records then
      match fuel with
      | 0 => (.fuelOut, reqs)
      | fuel + 1 =>
        let remaining_records := max_records - all_klines.length
        let current_chunk_limit := min 1000 remaining_records
        let chunk_end := min (current_start + current_chunk_limit * interval_ms) e
        let req : FetchReq := ⟨current_start, chunk_end, current_chunk_limit⟩
        match fetch reqs.length current_start chunk_end current_chunk_limit with
        | .error err => (.err err, reqs ++ [req])
        | .ok chunk_klines =>
          if chunk_klines.isEmpty then
            (.ok (finalize all_klines), reqs ++ [req])
          else
            let sorted := sortByStart chunk_klines
            let deduped :=
              match all_klines.getLast? with
              | none => sorted
              | some last => sorted.filter (fun k => last.start_time < k.start_time)
            let space_left := max_records - all_klines.length
            let truncated := deduped.take space_left
            let all_klines := all_klines ++ truncated
            if max_records ≤ all_klines.length then
              (.ok (finalize all_klines), reqs ++ [req])
            else
              match all_klines.getLast? with
              | some last_kline =>
                getKlineGo fetch e interval_ms max_records fuel
                  (last_kline.start_time + interval_ms) all_klines (reqs ++ [req])
              | none => (.ok (finalize all_klines), reqs ++ [req])
    else
      (.ok (finalize all_klines), reqs)

/-- `BybitClient::get_kline`: resolve the interval, then run the pagination
loop from the request's start with an empty accumulator.  Returns the run
outcome together with the list of requests issued. -/
def get_kline {F : Type} (fetch : Nat → Nat → Nat → Nat → Except BybitError (List (Kline F)))
    (interval : String) (start e : Nat) (max_records : Nat) (fuel : Nat) :
    RunResult F × List FetchReq :=
  match parse_interval_to_ms interval with
  | .error err => (.err err, [])
  | .ok interval_ms => getKlineGo fetch e interval_ms max_records fuel start [] []

/-- Rust `as i64` on a `u64` value: two's-complement wrap. -/
def i64ofNat (n : Nat) : Int :=
  if n < 2 ^ 63 then (n : Int) else (n : Int) - 2 ^ 64

/-- `struct BarterCandle` (field `open` renamed `open_p`: Lean keyword).
`close_time` is the epoch-millisecond value of the `DateTime<Utc>`. -/
structure BarterCandle (F : Type) where
  close_time : Int
  open_p : F
  high : F
  low : F
  close : F
  volume : F
  trade_count : Nat
deriving DecidableEq, Repr

/-- `struct BarterMarketEvent`. -/
structure BarterMarketEvent (F : Type) where
  time_exchange : Int
  time_received : Int
  exchange : String
  instrument : Nat
  kind : BarterCandle F
deriving DecidableEq, Repr

/-- `struct BarterMarketStreamEvent` with its nested `Item`/`Ok` wrappers
collapsed to the inner event (the wrappers carry no data of their own). -/
structure BarterMarketStreamEvent (F : Type) where
  item_ok : BarterMarketEvent F
deriving DecidableEq, Repr

/-- `Kline::to_barter_event`.  `tsMillis` stands for
`chrono::DateTime::from_timestamp_millis` (identity on chrono's
representable range, `none` outside it, with the code's fallback to the
epoch); `now` is the wall-clock reading `Utc::now()` at projection time. -/
def Kline.to_barter_event {F : Type} (tsMillis : Int → Option Int) (now : Int)
    (k : Kline F) (instrument_index : Nat) (interval_minutes : Nat)
    (category : String) : BarterMarketStreamEvent F :=
  let start_time := (tsMillis (i64ofNat k.start_time)).getD 0
  let close_time := start_time + 60000 * (interval_minutes : Int)
  let exchange_name :=
    if category = "spot" then "bybit_spot"
    else if category = "linear" then "bybit_perpetuals_usd"
    else if category = "inverse" then "bybit_perpetuals_usd"
    else "bybit_spot"
  { item_ok :=
    { time_exchange := start_time
      time_received := now
      exchange := exchange_name
      instrument := instrument_index
      kind :=
      { close_time := close_time
        open_p := k.open_price
        high := k.high_price
        low := k.low_price
        close := k.close_price
        volume := k.volume
        trade_count := 0 } } }

/-- `main`'s interval-minutes computation for the barter output path:
`args.interval.parse::<u32>().unwrap_or(15)`. -/
def barterIntervalMinutes (interval : String) : Nat :=
  (parseUint 32 interval).getD 15

/-- The projection `main` applies to each record in barter output mode. -/
def mainBarterEvent {F : Type} (tsMillis : Int → Option Int) (now : Int)
    (interval : String) (instrument_index : Nat) (category : String)
    (k : Kline F) : BarterMarketStreamEvent F :=
  k.to_barter_event tsMillis now instrument_index (barterIntervalMinutes interval) category

/-- A concrete kline at time `t` with unit-valued price fields, used in
concrete runs of the engine. -/
def kU (t : Nat) : Kline Unit := ⟨t, (), (), (), (), (), ()⟩




/-- Strict ordering on `start_time` (the monotonicity invariant). -/
def ltStart {F : Type} (a b : Kline F) : Prop :=
  a.start_time < b.start_time

theorem dedupLoop_subset {F : Type} (l : List (Kline F)) :
    ∀ last, ∀ x ∈ dedupLoop last l, x ∈ l := by
  induction l with
  | nil => intro last x hx; simp [dedupLoop] at hx
  | cons b rest ih =>
    intro last x hx
    simp only [dedupLoop] at hx
    split at hx
    · exact List.mem_cons_of_mem _ (ih last x hx)
    · rcases List.mem_cons.1 hx with rfl | hx'
      · exact List.mem_cons_self _ _
      · exact List.mem_cons_of_mem _ (ih b x hx')

theorem dedupLoop_length {F : Type} (l : List (Kline F)) :
    ∀ last, (dedupLoop last l).length ≤ l.length := by
  induction l with
  | nil => intro last; simp [dedupLoop]
  | cons b rest ih =>
    intro last
    simp only [dedupLoop]
    split
    · exact Nat.le_trans (ih last) (Nat.le_succ _)
    · simpa using ih b

theorem dedupByStart_subset {F : Type} (l : List (Kline F)) :
    ∀ x ∈ dedupByStart l, x ∈ l := by
  cases l with
  | nil => simp [dedupByStart]
  | cons a rest =>
    intro x hx
    rcases List.mem_cons.1 hx with rfl | hx'
    · exact List.mem_cons_self _ _
    · exact List.mem_cons_of_mem _ (dedupLoop_subset rest a x hx')

theorem dedupByStart_length {F : Type} (l : List (Kline F)) :
    (dedupByStart l).length ≤ l.length := by
  cases l with
  | nil => simp [dedupByStart]
  | cons a rest => simpa [dedupByStart] using dedupLoop_length rest a

theorem chain'_dedupLoop {F : Type} (l : List (Kline F)) :
    ∀ last, (∀ x ∈ l, last.start_time ≤ x.start_time) → l.Sorted leStart →
      List.Chain' ltStart (last :: dedupLoop last l) := by
  induction l with
  | nil => intro last _ _; simp [dedupLoop]
  | cons b rest ih =>
    intro last hle hsort
    have hb : last.start_time ≤ b.start_time := hle b (List.mem_cons_self b rest)
    have hrest : rest.Sorted leStart := hsort.of_cons
    have hble : ∀ x ∈ rest, b.start_time ≤ x.start_time :=
      fun x hx => List.rel_of_sorted_cons hsort x hx
    simp only [dedupLoop]
    split
    · rename_i heq
      exact ih last (fun x hx => heq ▸ hble x hx) hrest
    · rename_i hne
      rw [List.chain'_cons]
      exact ⟨Nat.lt_of_le_of_ne hb (fun h => hne h.symm), ih b hble hrest⟩

theorem sortByStart_sorted {F : Type} (l : List (Kline F)) :
    (sortByStart l).Sorted leStart :=
  List.sorted_insertionSort leStart l

theorem sortByStart_perm {F : Type} (l : List (Kline F)) :
    List.Perm (sortByStart l) l :=
  List.perm_insertionSort leStart l

/-- The post-loop sort-and-dedup pass yields a strictly increasing series. -/
theorem chain'_finalize {F : Type} (acc : List (Kline F)) :
    List.Chain' ltStart (finalize acc) := by
  unfold finalize
  cases h : sortByStart acc with
  | nil => simp [dedupByStart]
  | cons a l =>
    have hs : (a :: l).Sorted leStart := h ▸ sortByStart_sorted acc
    simpa [dedupByStart] using
      chain'_dedupLoop l a (fun x hx => List.rel_of_sorted_cons hs x hx) hs.of_cons

theorem finalize_length {F : Type} (acc : List (Kline F)) :
    (finalize acc).length ≤ acc.length := by
  unfold finalize
  calc (dedupByStart (sortByStart acc)).length ≤ (sortByStart acc).length :=
        dedupByStart_length _
    _ = acc.length := (sortByStart_perm acc).length_eq

theorem finalize_subset {F : Type} (acc : List (Kline F)) :
    ∀ x ∈ finalize acc, x ∈ acc := by
  intro x hx
  exact (sortByStart_perm acc).mem_iff.1 (dedupByStart_subset _ x hx)

theorem getKlineGo_ok {F : Type}
    (fetch : Nat → Nat → Nat → Nat → Except BybitError (List (Kline F)))
    (e interval_ms max_records : Nat) :
    ∀ (fuel cs : Nat) (acc : List (Kline F)) (reqs : List FetchReq)
      (ks : List (Kline F)) (reqs' : List FetchReq),
      getKlineGo fetch e interval_ms max_records fuel cs acc reqs = (.ok ks, reqs') →
      ∃ acc', ks = finalize acc' := by
  intro fuel
  induction fuel with
  | zero =>
    intro cs acc reqs ks reqs' h
    rw [getKlineGo] at h
    split at h
    · simp at h
    · simp only [Prod.mk.injEq, RunResult.ok.injEq] at h
      exact ⟨acc, h.1.symm⟩
  | succ n ih =>
    intro cs acc reqs ks reqs' h
    rw [getKlineGo] at h
    split at h
    · dsimp only at h
      split at h
      · simp at h
      · split at h
        · simp only [Prod.mk.injEq, RunResult.ok.injEq] at h
          exact ⟨acc, h.1.symm⟩
        · split at h
          · simp only [Prod.mk.injEq, RunResult.ok.injEq] at h
            exact ⟨_, h.1.symm⟩
          · split at h
            · exact ih _ _ _ _ _ h
            · simp only [Prod.mk.injEq, RunResult.ok.injEq] at h
              exact ⟨_, h.1.symm⟩
    · simp only [Prod.mk.injEq, RunResult.ok.injEq] at h
      exact ⟨acc, h.1.symm⟩

instance {F : Type} : IsTrans (Kline F) ltStart :=
  ⟨fun _ _ _ => Nat.lt_trans⟩

theorem getKlineGo_length {F : Type}
    (fetch : Nat → Nat → Nat → Nat → Except BybitError (List (Kline F)))
    (e interval_ms max_records : Nat) :
    ∀ (fuel cs : Nat) (acc : List (Kline F)) (reqs : List FetchReq)
      (ks : List (Kline F)) (reqs' : List FetchReq),
      acc.length ≤ max_records →
      getKlineGo fetch e interval_ms max_records fuel cs acc reqs = (.ok ks, reqs') →
      ks.length ≤ max_records := by
  intro fuel
  have fin : ∀ (a : List (Kline F)), a.length ≤ max_records →
      (finalize a).length ≤ max_records :=
    fun a ha => Nat.le_trans (finalize_length a) ha
  have app : ∀ (a l : List (Kline F)), a.length ≤ max_records →
      (a ++ l.take (max_records - a.length)).length ≤ max_records := by
    intro a l ha
    simp only [List.length_append, List.length_take]
    omega
  induction fuel with
  | zero =>
    intro cs acc reqs ks reqs' hacc h
    rw [getKlineGo] at h
    split at h
    · simp at h
    · simp only [Prod.mk.injEq, RunResult.ok.injEq] at h
      exact h.1 ▸ fin acc hacc
  | succ n ih =>
    intro cs acc reqs ks reqs' hacc h
    rw [getKlineGo] at h
    split at h
    · dsimp only at h
      split at h
      · simp at h
      · split at h
        · simp only [Prod.mk.injEq, RunResult.ok.injEq] at h
          exact h.1 ▸ fin acc hacc
        · split at h
          · simp only [Prod.mk.injEq, RunResult.ok.injEq] at h
            exact h.1 ▸ fin _ (app acc _ hacc)
          · split at h
            · exact ih _ _ _ _ _ (app acc _ hacc) h
            · simp only [Prod.mk.injEq, RunResult.ok.injEq] at h
              exact h.1 ▸ fin _ (app acc _ hacc)
    · simp only [Prod.mk.injEq, RunResult.ok.injEq] at h
      exact h.1 ▸ fin acc hacc

/-- A provider willing to return unlimited in-window records: every call is
answered with `limit` records spaced one interval (60000 ms) apart from the
requested window start. -/
def unlimitedFetch : Nat → Nat → Nat → Nat → Except BybitError (List (Kline Unit)) :=
  fun _ s _ l => .ok ((List.range l).map (fun j => kU (s + j * 60000)))

/-- C2: for every successful run of the pagination engine, the returned
series is strictly increasing in `start_time` (each record's `start_time`
strictly greater than the previous one's, hence every pair of records has
distinct timestamps). -/
theorem series_strictly_increasing {F : Type}
    (fetch : Nat → Nat → Nat → Nat → Except BybitError (List (Kline F)))
    (interval : String) (start e max_records fuel : Nat)
    (ks : List (Kline F)) (reqs : List FetchReq)
    (h : get_kline fetch interval start e max_records fuel = (.ok ks, reqs)) :
    List.Chain' ltStart ks ∧ List.Pairwise ltStart ks := by
  unfold get_kline at h
  cases hp : parse_interval_to_ms interval with
  | error err => rw [hp] at h; simp at h
  | ok ims =>
    rw [hp] at h
    obtain ⟨acc', rfl⟩ := getKlineGo_ok fetch e ims max_records fuel start [] [] ks reqs h
    have hc := chain'_finalize acc'
    exact ⟨hc, List.chain'_iff_pairwise.1 hc⟩

/-- Witness for C2: a concrete successful run, whose series is strictly
increasing. -/
theorem series_strictly_increasing_witness :
    List.Chain' ltStart [kU 0, kU 60000, kU 120000, kU 180000, kU 240000] ∧
      List.Pairwise ltStart [kU 0, kU 60000, kU 120000, kU 180000, kU 240000] :=
  series_strictly_increasing unlimitedFetch "1" 0 100000000000 5 10
    [kU 0, kU 60000, kU 120000, kU 180000, kU 240000] [⟨0, 300000, 5⟩] (by decide)

/-- C3: every successful run returns at most `max_records` records, and a
run with `max_records = 5` against a provider able to supply unlimited
in-window records returns exactly 5 records while issuing exactly one
request (no request is issued after the cap is reached). -/
theorem series_capped_by_max_records :
    (∀ {F : Type} (fetch : Nat → Nat → Nat → Nat → Except BybitError (List (Kline F)))
      (interval : String) (start e max_records fuel : Nat)
      (ks : List (Kline F)) (reqs : List FetchReq),
      get_kline fetch interval start e max_records fuel = (.ok ks, reqs) →
      ks.length ≤ max_records)
    ∧ get_kline unlimitedFetch "1" 0 100000000000 5 10
        = (.ok [kU 0, kU 60000, kU 120000, kU 180000, kU 240000], [⟨0, 300000, 5⟩]) := by
  constructor
  · intro F fetch interval start e mr fuel ks reqs h
    unfold get_kline at h
    cases hp : parse_interval_to_ms interval with
    | error err => rw [hp] at h; simp at h
    | ok ims =>
      rw [hp] at h
      exact getKlineGo_length fetch e ims mr fuel start [] [] ks reqs (by simp) h
  · decide

/-- Witness for C3: the cap bound instantiated at the concrete
5-record run. -/
theorem series_capped_by_max_records_witness :
    ([kU 0, kU 60000, kU 120000, kU 180000, kU 240000] : List (Kline Unit)).length ≤ 5 :=
  series_capped_by_max_records.1 unlimitedFetch "1" 0 100000000000 5 10
    [kU 0, kU 60000, kU 120000, kU 180000, kU 240000] [⟨0, 300000, 5⟩] (by decide)

/-- C10: a request with `max_records = 0` and a recognized interval code
issues no fetch request at all and returns the empty series. -/
theorem max_records_zero_no_fetch {F : Type}
    (fetch : Nat → Nat → Nat → Nat → Except BybitError (List (Kline F)))
    (interval : String) (start e fuel : Nat) (ims : Nat)
    (h : parse_interval_to_ms interval = .ok ims) :
    get_kline fetch interval start e 0 fuel = (.ok [], []) := by
  unfold get_kline
  rw [h]
  dsimp only
  rw [getKlineGo.eq_def]
  simp [finalize, sortByStart, dedupByStart, List.insertionSort]

/-- Witness for C10: concrete empty run with `max_records = 0`. -/
theorem max_records_zero_no_fetch_witness :
    get_kline unlimitedFetch "1" 0 100000000000 0 10 = (.ok [], []) :=
  max_records_zero_no_fetch unlimitedFetch "1" 0 100000000000 10 60000 rfl

/-- C7: interval resolution returns exactly the fixed table value for each
of the 13 supported codes, and every other code fails with an
unsupported-interval error naming the code. -/
theorem interval_table_exact :
    parse_interval_to_ms "1" = .ok 60000 ∧
    parse_interval_to_ms "3" = .ok 180000 ∧
    parse_interval_to_ms "5" = .ok 300000 ∧
    parse_interval_to_ms "15" = .ok 900000 ∧
    parse_interval_to_ms "30" = .ok 1800000 ∧
    parse_interval_to_ms "60" = .ok 3600000 ∧
    parse_interval_to_ms "120" = .ok 7200000 ∧
    parse_interval_to_ms "240" = .ok 14400000 ∧
    parse_interval_to_ms "360" = .ok 21600000 ∧
    parse_interval_to_ms "720" = .ok 43200000 ∧
    parse_interval_to_ms "D" = .ok 86400000 ∧
    parse_interval_to_ms "W" = .ok 604800000 ∧
    parse_interval_to_ms "M" = .ok 2592000000 ∧
    (∀ interval : String,
      interval ∉ ["1", "3", "5", "15", "30", "60", "120", "240", "360", "720", "D", "W", "M"] →
      parse_interval_to_ms interval
        = .error (.ApiError ("Unsupported interval: " ++ interval))) := by
  refine ⟨rfl, rfl, rfl, rfl, rfl, rfl, rfl, rfl, rfl, rfl, rfl, rfl, rfl, ?_⟩
  intro interval h
  simp only [List.mem_cons, List.not_mem_nil, or_false, not_or] at h
  obtain ⟨h1, h3, h5, h15, h30, h60, h120, h240, h360, h720, hD, hW, hM⟩ := h
  simp [parse_interval_to_ms, h1, h3, h5, h15, h30, h60, h120, h240, h360, h720, hD, hW, hM]

/-- Witness for C7: the unrecognized code `"7"` yields the
unsupported-interval error. -/
theorem interval_table_exact_witness :
    parse_interval_to_ms "7" = .error (.ApiError ("Unsupported interval: " ++ "7")) :=
  interval_table_exact.2.2.2.2.2.2.2.2.2.2.2.2.2 "7" (by decide)

/-- Any iteration whose fetch fails returns exactly that error, with the
accumulated records discarded (the error result carries no series). -/
theorem getKlineGo_fetch_error {F : Type}
    (fetch : Nat → Nat → Nat → Nat → Except BybitError (List (Kline F)))
    (e ims mr fuel cs : Nat) (acc : List (Kline F)) (reqs : List FetchReq)
    (er : BybitError) (hce : cs < e) (hacc : acc.length < mr)
    (hfetch : fetch reqs.length cs (min (cs + min 1000 (mr - acc.length) * ims) e)
        (min 1000 (mr - acc.length)) = .error er) :
    getKlineGo fetch e ims mr (fuel + 1) cs acc reqs
      = (.err er,
          reqs ++ [⟨cs, min (cs + min 1000 (mr - acc.length) * ims) e,
            min 1000 (mr - acc.length)⟩]) := by
  rw [getKlineGo.eq_def]
  dsimp only
  rw [if_pos (And.intro hce hacc), hfetch]

/-- C9: a success envelope (`retCode = 0`) with an absent `result` payload
fails with `ApiError "No result data"`, and a pagination run whose fetches
hit this condition aborts with that error instead of treating it as an
empty page. -/
theorem missing_result_is_error :
    (∀ {F : Type} (parseF : String → Option F) (msg : String) (t : Nat),
      get_kline_single parseF (.ok ⟨0, msg, none, t⟩)
        = .error (.ApiError "No result data"))
    ∧ (∀ {F : Type} (parseF : String → Option F) (msg : String) (t : Nat)
        (interval : String) (ims start e max_records fuel : Nat),
        parse_interval_to_ms interval = .ok ims → start < e → 0 < max_records →
        (get_kline (fun _ _ _ _ => get_kline_single parseF (.ok ⟨0, msg, none, t⟩))
            interval start e max_records (fuel + 1)).1
          = .err (.ApiError "No result data")) := by
  constructor
  · intro F parseF msg t
    simp [get_kline_single]
  · intro F parseF msg t interval ims start e max_records fuel hp hse hmr
    unfold get_kline
    rw [hp]
    dsimp only
    rw [getKlineGo_fetch_error _ e ims max_records fuel start [] []
      (.ApiError "No result data") hse (by simpa using hmr)
      (by simp [get_kline_single])]

/-- Witness for C9: a concrete run against a provider that always answers
with a success envelope missing its payload. -/
theorem missing_result_is_error_witness :
    (get_kline
        (fun _ _ _ _ =>
          get_kline_single (F := Unit) (fun _ => none) (.ok ⟨0, "", none, 0⟩))
        "1" 0 100 1 1).1
      = .err (.ApiError "No result data") :=
  missing_result_is_error.2 (fun _ => none) "" 0 "1" 60000 0 100 1 0 rfl
    (by decide) (by decide)

/-- A provider that answers the first call with one record at time 0 and
fails every later call. -/
def failAfterOneFetch : Nat → Nat → Nat → Nat → Except BybitError (List (Kline Unit)) :=
  fun i _ _ _ => if i = 0 then .ok [kU 0] else .error (.ApiError "boom")

/-- C8: whenever an iteration's fetch fails, the run returns exactly that
error and nothing else — the error value carries no series, so records
accumulated in earlier iterations are discarded; concretely, a run that
accumulates a record on call 0 and fails on call 1 returns only the error
(and the two issued requests). -/
theorem fetch_error_aborts_run :
    (∀ {F : Type} (fetch : Nat → Nat → Nat → Nat → Except BybitError (List (Kline F)))
      (e ims mr fuel cs : Nat) (acc : List (Kline F)) (reqs : List FetchReq)
      (er : BybitError),
      cs < e → acc.length < mr →
      fetch reqs.length cs (min (cs + min 1000 (mr - acc.length) * ims) e)
          (min 1000 (mr - acc.length)) = .error er →
      getKlineGo fetch e ims mr (fuel + 1) cs acc reqs
        = (.err er,
            reqs ++ [⟨cs, min (cs + min 1000 (mr - acc.length) * ims) e,
              min 1000 (mr - acc.length)⟩]))
    ∧ get_kline failAfterOneFetch "1" 0 10000000 10 5
        = (.err (.ApiError "boom"), [⟨0, 600000, 10⟩, ⟨60000, 600000, 9⟩]) := by
  constructor
  · intro F fetch e ims mr fuel cs acc reqs er hce hacc hfetch
    exact getKlineGo_fetch_error fetch e ims mr fuel cs acc reqs er hce hacc hfetch
  · decide

/-- Witness for C8: the abort equation instantiated at a provider that
fails its very first call. -/
theorem fetch_error_aborts_run_witness :
    getKlineGo (F := Unit) (fun _ _ _ _ => .error (.ApiError "down")) 1000 60000 3 5 0 [] []
      = (.err (.ApiError "down"), [⟨0, min (0 + min 1000 3 * 60000) 1000, min 1000 3⟩]) :=
  fetch_error_aborts_run.1 (fun _ _ _ _ => .error (.ApiError "down")) 1000 60000 3 4 0 [] []
    (.ApiError "down") (by decide) (by decide) rfl

/-- C6: normalization returns a bar record iff the row has at least 7
fields, field 0 parses as a 64-bit unsigned integer and fields 1–6 parse
as floats; otherwise it fails with the error of the first check that
failed, in the order arity, start_time, open, high, low, close, volume,
turnover; a failing row aborts the normalization of the whole page (first
failing row wins), and concretely a page containing the row `["100"]`
aborts the whole pagination run with the arity error. -/
theorem from_vec_first_failure {F : Type} (parseF : String → Option F)
    (data : List String) :
    ((∃ k, Kline.from_vec parseF data = .ok k) ↔
      (7 ≤ data.length ∧ (parseUint 64 (data.getD 0 "")).isSome ∧
        (parseF (data.getD 1 "")).isSome ∧ (parseF (data.getD 2 "")).isSome ∧
        (parseF (data.getD 3 "")).isSome ∧ (parseF (data.getD 4 "")).isSome ∧
        (parseF (data.getD 5 "")).isSome ∧ (parseF (data.getD 6 "")).isSome))
    ∧ (data.length < 7 →
        Kline.from_vec parseF data = .error (.ApiError "Invalid kline data format"))
    ∧ (7 ≤ data.length → parseUint 64 (data.getD 0 "") = none →
        Kline.from_vec parseF data = .error (.ApiError "Invalid start time"))
    ∧ (7 ≤ data.length → (parseUint 64 (data.getD 0 "")).isSome →
        parseF (data.getD 1 "") = none →
        Kline.from_vec parseF data = .error (.ApiError "Invalid open price"))
    ∧ (7 ≤ data.length → (parseUint 64 (data.getD 0 "")).isSome →
        (parseF (data.getD 1 "")).isSome → parseF (data.getD 2 "") = none →
        Kline.from_vec parseF data = .error (.ApiError "Invalid high price"))
    ∧ (7 ≤ data.length → (parseUint 64 (data.getD 0 "")).isSome →
        (parseF (data.getD 1 "")).isSome → (parseF (data.getD 2 "")).isSome →
        parseF (data.getD 3 "") = none →
        Kline.from_vec parseF data = .error (.ApiError "Invalid low price"))
    ∧ (7 ≤ data.length → (parseUint 64 (data.getD 0 "")).isSome →
        (parseF (data.getD 1 "")).isSome → (parseF (data.getD 2 "")).isSome →
        (parseF (data.getD 3 "")).isSome → parseF (data.getD 4 "") = none →
        Kline.from_vec parseF data = .error (.ApiError "Invalid close price"))
    ∧ (7 ≤ data.length → (parseUint 64 (data.getD 0 "")).isSome →
        (parseF (data.getD 1 "")).isSome → (parseF (data.getD 2 "")).isSome →
        (parseF (data.getD 3 "")).isSome → (parseF (data.getD 4 "")).isSome →
        parseF (data.getD 5 "") = none →
        Kline.from_vec parseF data = .error (.ApiError "Invalid volume"))
    ∧ (7 ≤ data.length → (parseUint 64 (data.getD 0 "")).isSome →
        (parseF (data.getD 1 "")).isSome → (parseF (data.getD 2 "")).isSome →
        (parseF (data.getD 3 "")).isSome → (parseF (data.getD 4 "")).isSome →
        (parseF (data.getD 5 "")).isSome → parseF (data.getD 6 "") = none →
        Kline.from_vec parseF data = .error (.ApiError "Invalid turnover"))
    ∧ (∀ (pre post : List (List String)) (er : BybitError),
        (∀ r ∈ pre, ∃ k, Kline.from_vec parseF r = .ok k) →
        Kline.from_vec parseF data = .error er →
        klinesOfList parseF (pre ++ data :: post) = .error er)
    ∧ get_kline
        (fun _ _ _ _ =>
          get_kline_single (F := Unit) (fun _ => some ())
            (.ok ⟨0, "OK", some ⟨"BTCUSDT", "linear", [["100"]]⟩, 0⟩))
        "1" 0 10000000 10 5
        = (.err (.ApiError "Invalid kline data format"), [⟨0, 600000, 10⟩]) := by
  have habort : ∀ (pre post : List (List String)) (er : BybitError),
      (∀ r ∈ pre, ∃ k, Kline.from_vec parseF r = .ok k) →
      Kline.from_vec parseF data = .error er →
      klinesOfList parseF (pre ++ data :: post) = .error er := by
    intro pre post er
    induction pre with
    | nil => intro _ herr; simp [klinesOfList, herr]
    | cons r rest ih =>
      intro hpre herr
      obtain ⟨k, hk⟩ := hpre r (List.mem_cons_self r rest)
      simp [klinesOfList, hk,
        ih (fun x hx => hpre x (List.mem_cons_of_mem _ hx)) herr]
  refine ⟨?_, ?_, ?_, ?_, ?_, ?_, ?_, ?_, ?_, habort, by decide⟩
  · constructor
    · rintro ⟨k, hk⟩
      unfold Kline.from_vec at hk
      by_cases hlen : data.length < 7
      · rw [if_pos hlen] at hk
        exact Except.noConfusion hk
      rw [if_neg hlen] at hk
      rcases e0 : parseUint 64 (data.getD 0 "") with _ | st
      · rw [e0] at hk; simp at hk
      rw [e0] at hk
      rcases e1 : parseF (data.getD 1 "") with _ | o
      · rw [e1] at hk; simp at hk
      rw [e1] at hk
      rcases e2 : parseF (data.getD 2 "") with _ | hi
      · rw [e2] at hk; simp at hk
      rw [e2] at hk
      rcases e3 : parseF (data.getD 3 "") with _ | lo
      · rw [e3] at hk; simp at hk
      rw [e3] at hk
      rcases e4 : parseF (data.getD 4 "") with _ | c
      · rw [e4] at hk; simp at hk
      rw [e4] at hk
      rcases e5 : parseF (data.getD 5 "") with _ | v
      · rw [e5] at hk; simp at hk
      rw [e5] at hk
      rcases e6 : parseF (data.getD 6 "") with _ | t
      · rw [e6] at hk; simp at hk
      exact ⟨by omega, rfl, rfl, rfl, rfl, rfl, rfl, rfl⟩
    · rintro ⟨hlen, hs0, hs1, hs2, hs3, hs4, hs5, hs6⟩
      obtain ⟨st, e0⟩ := Option.isSome_iff_exists.1 hs0
      obtain ⟨o, e1⟩ := Option.isSome_iff_exists.1 hs1
      obtain ⟨hi, e2⟩ := Option.isSome_iff_exists.1 hs2
      obtain ⟨lo, e3⟩ := Option.isSome_iff_exists.1 hs3
      obtain ⟨c, e4⟩ := Option.isSome_iff_exists.1 hs4
      obtain ⟨v, e5⟩ := Option.isSome_iff_exists.1 hs5
      obtain ⟨t, e6⟩ := Option.isSome_iff_exists.1 hs6
      refine ⟨⟨st, o, hi, lo, c, v, t⟩, ?_⟩
      unfold Kline.from_vec
      rw [if_neg (by omega : ¬(data.length < 7)), e0, e1, e2, e3, e4, e5, e6]
  · intro hlen
    unfold Kline.from_vec
    rw [if_pos hlen]
  · intro hlen e0
    unfold Kline.from_vec
    rw [if_neg (by omega : ¬(data.length < 7)), e0]
  · intro hlen hs0 e1
    obtain ⟨st, e0⟩ := Option.isSome_iff_exists.1 hs0
    unfold Kline.from_vec
    rw [if_neg (by omega : ¬(data.length < 7)), e0, e1]
  · intro hlen hs0 hs1 e2
    obtain ⟨st, e0⟩ := Option.isSome_iff_exists.1 hs0
    obtain ⟨o, e1⟩ := Option.isSome_iff_exists.1 hs1
    unfold Kline.from_vec
    rw [if_neg (by omega : ¬(data.length < 7)), e0, e1, e2]
  · intro hlen hs0 hs1 hs2 e3
    obtain ⟨st, e0⟩ := Option.isSome_iff_exists.1 hs0
    obtain ⟨o, e1⟩ := Option.isSome_iff_exists.1 hs1
    obtain ⟨hi, e2⟩ := Option.isSome_iff_exists.1 hs2
    unfold Kline.from_vec
    rw [if_neg (by omega : ¬(data.length < 7)), e0, e1, e2, e3]
  · intro hlen hs0 hs1 hs2 hs3 e4
    obtain ⟨st, e0⟩ := Option.isSome_iff_exists.1 hs0
    obtain ⟨o, e1⟩ := Option.isSome_iff_exists.1 hs1
    obtain ⟨hi, e2⟩ := Option.isSome_iff_exists.1 hs2
    obtain ⟨lo, e3⟩ := Option.isSome_iff_exists.1 hs3
    unfold Kline.from_vec
    rw [if_neg (by omega : ¬(data.length < 7)), e0, e1, e2, e3, e4]
  · intro hlen hs0 hs1 hs2 hs3 hs4 e5
    obtain ⟨st, e0⟩ := Option.isSome_iff_exists.1 hs0
    obtain ⟨o, e1⟩ := Option.isSome_iff_exists.1 hs1
    obtain ⟨hi, e2⟩ := Option.isSome_iff_exists.1 hs2
    obtain ⟨lo, e3⟩ := Option.isSome_iff_exists.1 hs3
    obtain ⟨c, e4⟩ := Option.isSome_iff_exists.1 hs4
    unfold Kline.from_vec
    rw [if_neg (by omega : ¬(data.length < 7)), e0, e1, e2, e3, e4, e5]
  · intro hlen hs0 hs1 hs2 hs3 hs4 hs5 e6
    obtain ⟨st, e0⟩ := Option.isSome_iff_exists.1 hs0
    obtain ⟨o, e1⟩ := Option.isSome_iff_exists.1 hs1
    obtain ⟨hi, e2⟩ := Option.isSome_iff_exists.1 hs2
    obtain ⟨lo, e3⟩ := Option.isSome_iff_exists.1 hs3
    obtain ⟨c, e4⟩ := Option.isSome_iff_exists.1 hs4
    obtain ⟨v, e5⟩ := Option.isSome_iff_exists.1 hs5
    unfold Kline.from_vec
    rw [if_neg (by omega : ¬(data.length < 7)), e0, e1, e2, e3, e4, e5, e6]

/-- Witness for C6: the short row `["100"]` fails the arity check with the
format error. -/
theorem from_vec_first_failure_witness :
    Kline.from_vec (fun _ => (some () : Option Unit)) ["100"]
      = .error (.ApiError "Invalid kline data format") :=
  (from_vec_first_failure (fun _ => (some () : Option Unit)) ["100"]).2.1 (by decide)

/-- C1 counterexample: a provider that keeps answering with the already-seen
record at time 0.  Iteration 1 appends it; iteration 2 receives a non-empty
page whose only row is dropped by deduplication, so nothing is appended —
yet the engine issues a third fetch with exactly the same window as the
second, and with larger fuel it keeps refetching (one request per unit of
fuel), instead of terminating after the no-progress iteration. -/
theorem no_progress_counterexample :
    get_kline (fun _ _ _ _ => .ok [kU 0]) "1" 0 1000000000 10 3
      = (.fuelOut, [⟨0, 600000, 10⟩, ⟨60000, 600000, 9⟩, ⟨60000, 600000, 9⟩])
    ∧ (get_kline (fun _ _ _ _ => .ok [kU 0]) "1" 0 1000000000 10 6).2.length = 6
    ∧ (get_kline (fun _ _ _ _ => .ok [kU 0]) "1" 0 1000000000 10 6).1
        = RunResult.fuelOut := by
  refine ⟨by decide, by decide, by decide⟩

/-- C1 (amended): an iteration that appends no record (non-empty page, all
rows at or before the accumulator's last `start_time`) terminates the loop
only when the accumulator is empty; with a non-empty accumulator the loop
does not terminate — it re-enters with `current_start` set to the last
record's `start_time + interval_ms` (the same value as before) after
issuing the fetch, so the same request is issued again as long as fuel and
the loop condition allow. -/
theorem no_progress_iteration_refetches {F : Type}
    (fetch : Nat → Nat → Nat → Nat → Except BybitError (List (Kline F)))
    (e ims mr fuel cs : Nat) (acc : List (Kline F)) (reqs : List FetchReq)
    (last : Kline F) (chunk : List (Kline F))
    (hlast : acc.getLast? = some last)
    (hfetch : fetch reqs.length cs (min (cs + min 1000 (mr - acc.length) * ims) e)
        (min 1000 (mr - acc.length)) = .ok chunk)
    (hne : chunk ≠ [])
    (hstale : ∀ k ∈ chunk, k.start_time ≤ last.start_time)
    (hce : cs < e) (hacc : acc.length < mr) :
    getKlineGo fetch e ims mr (fuel + 1) cs acc reqs
      = getKlineGo fetch e ims mr fuel (last.start_time + ims) acc
          (reqs ++ [⟨cs, min (cs + min 1000 (mr - acc.length) * ims) e,
            min 1000 (mr - acc.length)⟩]) := by
  have hfilter :
      (sortByStart chunk).filter (fun k => last.start_time < k.start_time) = [] := by
    refine List.filter_eq_nil_iff.2 ?_
    intro a ha
    have hmemb : a ∈ chunk := (sortByStart_perm chunk).mem_iff.1 ha
    simpa using Nat.not_lt.2 (hstale a hmemb)
  rw [getKlineGo.eq_def]
  dsimp only
  rw [if_pos (And.intro hce hacc), hfetch]
  dsimp only
  rw [if_neg (by simpa [List.isEmpty_iff] using hne)]
  rw [hlast]
  dsimp only
  rw [hfilter]
  simp only [List.take_nil, List.append_nil]
  rw [if_neg (Nat.not_le.2 hacc), hlast]

/-- Witness for C1 (amended): the refetch equation at the concrete stuck
state of the counterexample run (accumulator `[kU 0]`, stale page
`[kU 0]`). -/
theorem no_progress_iteration_refetches_witness :
    getKlineGo (F := Unit) (fun _ _ _ _ => .ok [kU 0]) 1000000000 60000 10 (1 + 1)
        60000 [kU 0] [⟨0, 600000, 10⟩]
      = getKlineGo (fun _ _ _ _ => .ok [kU 0]) 1000000000 60000 10 1
          ((kU 0).start_time + 60000) [kU 0]
          ([⟨0, 600000, 10⟩]
            ++ [⟨60000, min (60000 + min 1000 (10 - [kU 0].length) * 60000) 1000000000,
              min 1000 (10 - [kU 0].length)⟩]) :=
  no_progress_iteration_refetches (fun _ _ _ _ => .ok [kU 0]) 1000000000 60000 10 1
    60000 [kU 0] [⟨0, 600000, 10⟩] (kU 0) [kU 0] rfl rfl (by decide) (by decide)
    (by decide) (by decide)

/-- Members of the sorted, deduplicated, truncated chunk all come from the
fetched chunk. -/
theorem mem_dedup_take {F : Type} (acc chunk : List (Kline F)) (n : Nat)
    (k : Kline F)
    (hk : k ∈ List.take n
      (match acc.getLast? with
        | none => sortByStart chunk
        | some last =>
          (sortByStart chunk).filter (fun x => last.start_time < x.start_time))) :
    k ∈ chunk := by
  have h1 := List.mem_of_mem_take hk
  rcases hql : acc.getLast? with _ | last
  · rw [hql] at h1
    exact (sortByStart_perm chunk).mem_iff.1 h1
  · rw [hql] at h1
    exact (sortByStart_perm chunk).mem_iff.1 (List.mem_of_mem_filter h1)

theorem getKlineGo_window {F : Type}
    (fetch : Nat → Nat → Nat → Nat → Except BybitError (List (Kline F)))
    (e ims mr s : Nat)
    (hfetch : ∀ i ws we l ks, fetch i ws we l = .ok ks →
      ∀ k ∈ ks, ws ≤ k.start_time ∧ k.start_time < we) :
    ∀ (fuel cs : Nat) (acc : List (Kline F)) (reqs : List FetchReq)
      (ks : List (Kline F)) (reqs' : List FetchReq),
      s ≤ cs →
      (∀ k ∈ acc, s ≤ k.start_time ∧ k.start_time < e) →
      getKlineGo fetch e ims mr fuel cs acc reqs = (.ok ks, reqs') →
      ∀ k ∈ ks, s ≤ k.start_time ∧ k.start_time < e := by
  intro fuel
  induction fuel with
  | zero =>
    intro cs acc reqs ks reqs' hcs hacc h
    rw [getKlineGo] at h
    split at h
    · simp at h
    · simp only [Prod.mk.injEq, RunResult.ok.injEq] at h
      intro k hk
      exact hacc k (finalize_subset acc k (h.1 ▸ hk))
  | succ n ih =>
    intro cs acc reqs ks reqs' hcs hacc h
    rw [getKlineGo] at h
    split at h
    · dsimp only at h
      split at h
      · simp at h
      · rename_i chunk hchunkeq
        have hchunkP : ∀ k ∈ chunk, s ≤ k.start_time ∧ k.start_time < e := by
          intro k hkc
          obtain ⟨h1, h2⟩ := hfetch _ _ _ _ _ hchunkeq k hkc
          exact ⟨Nat.le_trans hcs h1, Nat.lt_of_lt_of_le h2 (Nat.min_le_right _ _)⟩
        split at h
        · simp only [Prod.mk.injEq, RunResult.ok.injEq] at h
          intro k hk
          exact hacc k (finalize_subset acc k (h.1 ▸ hk))
        · rcases hql : acc.getLast? with _ | lastk
          · rw [hql] at h
            dsimp only at h
            have hinv : ∀ k ∈ acc ++ List.take (mr - acc.length) (sortByStart chunk),
                s ≤ k.start_time ∧ k.start_time < e := by
              intro k hk
              rcases List.mem_append.1 hk with hk3 | hk3
              · exact hacc k hk3
              · exact hchunkP k
                  ((sortByStart_perm chunk).mem_iff.1 (List.mem_of_mem_take hk3))
            split at h
            · simp only [Prod.mk.injEq, RunResult.ok.injEq] at h
              intro k hk
              exact hinv k (finalize_subset _ k (h.1 ▸ hk))
            · split at h
              · rename_i last2 hql2
                refine ih _ _ _ _ _ ?_ hinv h
                exact Nat.le_trans (hinv _ (List.mem_of_getLast?_eq_some hql2)).1
                  (Nat.le_add_right _ _)
              · simp only [Prod.mk.injEq, RunResult.ok.injEq] at h
                intro k hk
                exact hinv k (finalize_subset _ k (h.1 ▸ hk))
          · rw [hql] at h
            dsimp only at h
            have hinv : ∀ k ∈ acc ++ List.take (mr - acc.length)
                ((sortByStart chunk).filter (fun x => lastk.start_time < x.start_time)),
                s ≤ k.start_time ∧ k.start_time < e := by
              intro k hk
              rcases List.mem_append.1 hk with hk3 | hk3
              · exact hacc k hk3
              · exact hchunkP k ((sortByStart_perm chunk).mem_iff.1
                  (List.mem_of_mem_filter (List.mem_of_mem_take hk3)))
            split at h
            · simp only [Prod.mk.injEq, RunResult.ok.injEq] at h
              intro k hk
              exact hinv k (finalize_subset _ k (h.1 ▸ hk))
            · split at h
              · rename_i last2 hql2
                refine ih _ _ _ _ _ ?_ hinv h
                exact Nat.le_trans (hinv _ (List.mem_of_getLast?_eq_some hql2)).1
                  (Nat.le_add_right _ _)
              · simp only [Prod.mk.injEq, RunResult.ok.injEq] at h
                intro k hk
                exact hinv k (finalize_subset _ k (h.1 ▸ hk))
    · simp only [Prod.mk.injEq, RunResult.ok.injEq] at h
      intro k hk
      exact hacc k (finalize_subset acc k (h.1 ▸ hk))

/-- C4 counterexample: the engine applies no window filtering of its own —
a provider that answers with a record at time 1000 for the window
`[0, 100)` makes the run return that out-of-window record. -/
theorem out_of_window_counterexample :
    get_kline (fun _ _ _ _ => .ok [kU 1000]) "1" 0 100 5 10
      = (.ok [kU 1000], [⟨0, 100, 5⟩])
    ∧ ¬((kU 1000).start_time < 100) := by decide

/-- C4 (amended): provided every fetched page only contains records inside
its requested sub-window `[req_start, req_end)`, every record of a
successful run lies within the requested window `[original_start,
original_end)`.  Without that assumption on the provider the engine gives
no such guarantee (it never filters by window). -/
theorem records_within_window {F : Type}
    (fetch : Nat → Nat → Nat → Nat → Except BybitError (List (Kline F)))
    (interval : String) (s e mr fuel : Nat)
    (ks : List (Kline F)) (reqs : List FetchReq)
    (hfetch : ∀ i ws we l ks', fetch i ws we l = .ok ks' →
      ∀ k ∈ ks', ws ≤ k.start_time ∧ k.start_time < we)
    (h : get_kline fetch interval s e mr fuel = (.ok ks, reqs)) :
    ∀ k ∈ ks, s ≤ k.start_time ∧ k.start_time < e := by
  unfold get_kline at h
  cases hp : parse_interval_to_ms interval with
  | error err => rw [hp] at h; simp at h
  | ok ims =>
    rw [hp] at h
    exact getKlineGo_window fetch e ims mr s hfetch fuel s [] [] ks reqs
      (Nat.le_refl s) (by simp) h

/-- A provider that honours the requested window: it answers with the
single record at the window start when the window is non-empty, and with
an empty page otherwise. -/
def windowFetch : Nat → Nat → Nat → Nat → Except BybitError (List (Kline Unit)) :=
  fun _ s e _ => .ok (if s < e then [kU s] else [])

theorem windowFetch_in_window :
    ∀ i ws we l ks', windowFetch i ws we l = .ok ks' →
      ∀ k ∈ ks', ws ≤ k.start_time ∧ k.start_time < we := by
  intro i ws we l ks' h k hk
  rw [← Except.ok.inj h] at hk
  by_cases hw : ws < we
  · simp [hw] at hk
    subst hk
    exact ⟨Nat.le_refl ws, hw⟩
  · simp [hw] at hk

/-- Witness for C4 (amended): a concrete run against the window-honouring
provider; its single returned record lies inside `[0, 100)`. -/
theorem records_within_window_witness :
    0 ≤ (kU 0).start_time ∧ (kU 0).start_time < 100 :=
  records_within_window windowFetch "1" 0 100 5 10 [kU 0] [⟨0, 100, 5⟩]
    windowFetch_in_window (by decide) (kU 0) (by decide)

/-- For interval codes that parse as a `u32` (the numeric minute codes of
the table), the minutes used by `main`'s barter path agree with the
resolver: `60000 * minutes = resolved duration`. -/
theorem resolver_minutes_agree (interval : String) (d : Nat)
    (hp : parse_interval_to_ms interval = .ok d)
    (hm : (parseUint 32 interval).isSome) :
    60000 * barterIntervalMinutes interval = d := by
  by_cases h1 : interval = "1"
  · subst h1
    rw [show parse_interval_to_ms "1" = .ok 60000 from rfl] at hp
    rw [← Except.ok.inj hp]
    decide
  by_cases h3 : interval = "3"
  · subst h3
    rw [show parse_interval_to_ms "3" = .ok 180000 from rfl] at hp
    rw [← Except.ok.inj hp]
    decide
  by_cases h5 : interval = "5"
  · subst h5
    rw [show parse_interval_to_ms "5" = .ok 300000 from rfl] at hp
    rw [← Except.ok.inj hp]
    decide
  by_cases h15 : interval = "15"
  · subst h15
    rw [show parse_interval_to_ms "15" = .ok 900000 from rfl] at hp
    rw [← Except.ok.inj hp]
    decide
  by_cases h30 : interval = "30"
  · subst h30
    rw [show parse_interval_to_ms "30" = .ok 1800000 from rfl] at hp
    rw [← Except.ok.inj hp]
    decide
  by_cases h60 : interval = "60"
  · subst h60
    rw [show parse_interval_to_ms "60" = .ok 3600000 from rfl] at hp
    rw [← Except.ok.inj hp]
    decide
  by_cases h120 : interval = "120"
  · subst h120
    rw [show parse_interval_to_ms "120" = .ok 7200000 from rfl] at hp
    rw [← Except.ok.inj hp]
    decide
  by_cases h240 : interval = "240"
  · subst h240
    rw [show parse_interval_to_ms "240" = .ok 14400000 from rfl] at hp
    rw [← Except.ok.inj hp]
    decide
  by_cases h360 : interval = "360"
  · subst h360
    rw [show parse_interval_to_ms "360" = .ok 21600000 from rfl] at hp
    rw [← Except.ok.inj hp]
    decide
  by_cases h720 : interval = "720"
  · subst h720
    rw [show parse_interval_to_ms "720" = .ok 43200000 from rfl] at hp
    rw [← Except.ok.inj hp]
    decide
  by_cases hD : interval = "D"
  · subst hD
    exact absurd hm (by decide)
  by_cases hW : interval = "W"
  · subst hW
    exact absurd hm (by decide)
  by_cases hM : interval = "M"
  · subst hM
    exact absurd hm (by decide)
  have herr : parse_interval_to_ms interval
      = .error (.ApiError ("Unsupported interval: " ++ interval)) := by
    simp [parse_interval_to_ms, h1, h3, h5, h15, h30, h60, h120, h240, h360,
      h720, hD, hW, hM]
  rw [herr] at hp
  exact Except.noConfusion hp

/-- C5 counterexample: for the interval code `"D"` the resolver yields
86,400,000 ms, but the projected `close_time` adds only 15 minutes
(`interval.parse::<u32>().unwrap_or(15)` falls back to 15), so
`close_time ≠ start_time + resolved duration`. -/
theorem close_time_mismatch_counterexample :
    parse_interval_to_ms "D" = .ok 86400000
    ∧ (mainBarterEvent (fun t => some t) 0 "D" 0 "linear" (kU 0)).item_ok.kind.close_time
        = 900000
    ∧ (900000 : Int) ≠ ((kU 0).start_time : Int) + 86400000 := by
  exact ⟨rfl, by decide, by decide⟩

/-- C5 (amended): for every projected bar record with a representable
timestamp, the projector adds exactly `interval_minutes` minutes to the
record's `start_time`; composed through `main`, `close_time` equals
`start_time` plus the resolved interval duration for every interval code
that parses as a `u32` (all numeric codes of the table), while for the
codes `D`/`W`/`M` the minute parse falls back to 15 and `close_time` is
`start_time + 900000` regardless of the resolved duration; the reception
timestamp is the wall-clock `now` supplied at projection; the category
maps via spot→`bybit_spot`, linear→`bybit_perpetuals_usd`,
inverse→`bybit_perpetuals_usd`, any other→`bybit_spot`; and the trade
count is always 0. -/
theorem barter_projection_fields :
    (∀ {F : Type} (tsMillis : Int → Option Int) (now : Int) (k : Kline F)
      (idx m : Nat) (cat : String),
      tsMillis (i64ofNat k.start_time) = some (i64ofNat k.start_time) →
      (k.to_barter_event tsMillis now idx m cat).item_ok.kind.close_time
        = i64ofNat k.start_time + 60000 * (m : Int))
    ∧ (∀ {F : Type} (tsMillis : Int → Option Int) (now : Int) (k : Kline F)
        (idx : Nat) (cat : String) (interval : String) (d : Nat),
        parse_interval_to_ms interval = .ok d →
        (parseUint 32 interval).isSome →
        tsMillis (i64ofNat k.start_time) = some (i64ofNat k.start_time) →
        (mainBarterEvent tsMillis now interval idx cat k).item_ok.kind.close_time
          = i64ofNat k.start_time + (d : Int))
    ∧ (∀ {F : Type} (tsMillis : Int → Option Int) (now : Int) (k : Kline F)
        (idx : Nat) (cat : String) (interval : String),
        interval ∈ ["D", "W", "M"] →
        tsMillis (i64ofNat k.start_time) = some (i64ofNat k.start_time) →
        (mainBarterEvent tsMillis now interval idx cat k).item_ok.kind.close_time
          = i64ofNat k.start_time + 900000)
    ∧ (∀ {F : Type} (tsMillis : Int → Option Int) (now : Int) (k : Kline F)
        (idx m : Nat) (cat : String),
        (k.to_barter_event tsMillis now idx m cat).item_ok.time_received = now)
    ∧ (∀ {F : Type} (tsMillis : Int → Option Int) (now : Int) (k : Kline F)
        (idx m : Nat),
        (k.to_barter_event tsMillis now idx m "spot").item_ok.exchange = "bybit_spot"
        ∧ (k.to_barter_event tsMillis now idx m "linear").item_ok.exchange
            = "bybit_perpetuals_usd"
        ∧ (k.to_barter_event tsMillis now idx m "inverse").item_ok.exchange
            = "bybit_perpetuals_usd")
    ∧ (∀ {F : Type} (tsMillis : Int → Option Int) (now : Int) (k : Kline F)
        (idx m : Nat) (cat : String),
        cat ∉ ["spot", "linear", "inverse"] →
        (k.to_barter_event tsMillis now idx m cat).item_ok.exchange = "bybit_spot")
    ∧ (∀ {F : Type} (tsMillis : Int → Option Int) (now : Int) (k : Kline F)
        (idx m : Nat) (cat : String),
        (k.to_barter_event tsMillis now idx m cat).item_ok.kind.trade_count = 0) := by
  refine ⟨?_, ?_, ?_, ?_, ?_, ?_, ?_⟩
  · intro F tsMillis now k idx m cat hts
    simp [Kline.to_barter_event, hts]
  · intro F tsMillis now k idx cat interval d hp hm hts
    have hmagree := resolver_minutes_agree interval d hp hm
    simp only [mainBarterEvent, Kline.to_barter_event, hts, Option.getD_some]
    rw [← hmagree]
    push_cast
    ring
  · intro F tsMillis now k idx cat interval hmem hts
    have h15 : barterIntervalMinutes interval = 15 := by
      simp only [List.mem_cons, List.not_mem_nil, or_false] at hmem
      rcases hmem with rfl | rfl | rfl
      · rfl
      · rfl
      · rfl
    simp only [mainBarterEvent, Kline.to_barter_event, hts, Option.getD_some, h15]
    push_cast
    ring
  · intro F tsMillis now k idx m cat
    rfl
  · intro F tsMillis now k idx m
    exact ⟨rfl, rfl, rfl⟩
  · intro F tsMillis now k idx m cat hcat
    simp only [List.mem_cons, List.not_mem_nil, or_false, not_or] at hcat
    obtain ⟨hs, hl, hi⟩ := hcat
    simp [Kline.to_barter_event, hs, hl, hi]
  · intro F tsMillis now k idx m cat
    rfl

/-- Witness for C5 (amended): the composed close-time equation at the
numeric code `"60"` (one hour), a representable timestamp and a concrete
record. -/
theorem barter_projection_fields_witness :
    (mainBarterEvent (fun t => some t) 5 "60" 3 "spot" (kU 0)).item_ok.kind.close_time
      = i64ofNat (kU 0).start_time + (3600000 : Int) :=
  barter_projection_fields.2.1 (fun t => some t) 5 (kU 0) 3 "spot" "60" 3600000
    rfl (by decide) rfl
